import Mathlib

/-!
Verification development for the cloud-savegame backup tool.

The definitions below are a shallow embedding of the Python sources
(src/cloud_savegame/__init__.py and the helpers in config_utils.py).
Python strings are Lean Strings, operated on at character level; paths
are their string forms (the code compares paths as strings); the
filesystem is an abstract read-only structure FS, and the effectful
parts of the code are functions returning the lists of actions and
diagnostics they would perform. The FS is the pre-state of a call:
guard reads are evaluated against it and mutations are recorded as
actions.
-/

/-! ## Python string primitives -/

/-- Python str.startswith, at character level. -/
def pyStartsWith (s pre : String) : Bool :=
  pre.toList.isPrefixOf s.toList

/-- The characters Python str.strip removes. -/
def isPyWhitespace (c : Char) : Bool :=
  c == ' ' || c == '\t' || c == '\n' || c == '\r' || c == '\x0b' || c == '\x0c'

def pyStripList (l : List Char) : List Char :=
  ((l.dropWhile isPyWhitespace).reverse.dropWhile isPyWhitespace).reverse

/-- Python str.strip with no argument. -/
def pyStrip (s : String) : String := ⟨pyStripList s.toList⟩

/-- Python str.split on a single-character separator (as in split on a newline). -/
def splitChar (c : Char) : List Char → List (List Char)
  | [] => [[]]
  | x :: rest =>
    if x = c then [] :: splitChar c rest
    else
      match splitChar c rest with
      | [] => [[x]]
      | h :: t => (x :: h) :: t

/-- Python str.split on a non-empty separator (s0 :: srest), general case. -/
def splitSeq (s0 : Char) (srest : List Char) : List Char → List (List Char)
  | [] => [[]]
  | c :: rest =>
    if (s0 :: srest).isPrefixOf (c :: rest) then
      [] :: splitSeq s0 srest (rest.drop srest.length)
    else
      match splitSeq s0 srest rest with
      | [] => [[c]]
      | h :: t => (c :: h) :: t
termination_by l => l.length
decreasing_by
  · simp only [List.length_drop, List.length_cons]
    omega
  · simp

/-- Python str.split(sep). Python raises ValueError for an empty separator;
no caller in the source passes one, and that branch is totalized to [s]. -/
def pySplit (s sep : String) : List String :=
  match sep.toList with
  | [] => [s]
  | c :: cs => (splitSeq c cs s.toList).map (fun l => ⟨l⟩)

/-- Python str.split on a newline, as content.split applied to a newline string. -/
def pySplitLines (s : String) : List String :=
  (splitChar '\n' s.toList).map (fun l => ⟨l⟩)

/-- Python sep.join(l), recursively. -/
def joinChar (sep : List Char) : List (List Char) → List Char
  | [] => []
  | [a] => a
  | a :: b :: rest => a ++ sep ++ joinChar sep (b :: rest)

/-- Python sep.join(list). -/
def pyJoin (sep : String) (l : List String) : String :=
  ⟨joinChar sep.toList (l.map String.toList)⟩

/-- Membership of a character in a Python string (the in operator). -/
def pyContainsChar (s : String) (c : Char) : Bool := s.toList.contains c

/-- Python pathlib is_absolute on a POSIX path: it starts with a slash. -/
def pyIsAbsolute (s : String) : Bool := pyStartsWith s "/"

/-- Python truthiness of an optional string with a string default: x or d. -/
def pyOrStr (x : Option String) (d : String) : String :=
  match x with
  | some s => if s = "" then d else s
  | none => d

/-! ## Path helpers (pathlib PurePosixPath name and parent; trailing-slash
normalization of pathlib is not modelled, no caller builds such a path). -/

/-- pathlib Path(s).name: the part after the last slash. -/
def pathName (s : String) : String :=
  ⟨(s.toList.reverse.takeWhile (fun c => c ≠ '/')).reverse⟩

/-- pathlib Path(s).parent: the part before the last slash; a dot when there
is no slash, a single slash for a top-level absolute path. -/
def pathParent (s : String) : String :=
  match s.toList.reverse.dropWhile (fun c => c ≠ '/') with
  | [] => "."
  | [_] => "/"
  | _ :: tl => ⟨tl.reverse⟩

/-- A path p lies inside (is a filesystem descendant of) a base b: it is b
itself or extends b past a path separator. This definition follows the words
of the spec (descendant), for comparison with the string checks of the code. -/
def isFsDescendant (p b : String) : Bool :=
  (p == b) || pyStartsWith p (b ++ "/")

/-! ## Config accessors (src/cloud_savegame/config_utils.py) -/

/-- The section/key store behind ConfigParser, as the code observes it. -/
structure ConfigStore where
  sections : List (String × List (String × String))
deriving DecidableEq

/-- get_str: the value when the section and key exist, otherwise none. -/
def get_str (config : ConfigStore) (sec key : String) : Option String :=
  match config.sections.find? (fun s => s.1 == sec) with
  | none => none
  | some s =>
    match s.2.find? (fun kv => kv.1 == key) with
    | none => none
    | some kv => some kv.2

/-- get_list: split the stripped value on the configured divider; None when
the stripped value is empty or the key absent. -/
def get_list (config : ConfigStore) (sec key : String) : Option (List String) :=
  let divider := pyOrStr (get_str config "general" "divider") ","
  let raw := pyStrip (pyOrStr (get_str config sec key) "")
  if raw = "" then none
  else some (pySplit raw divider)

/-- get_bool: presence of the key, its value ignored. -/
def get_bool (config : ConfigStore) (sec key : String) : Bool :=
  (get_str config sec key).isSome

/-! ## Ignore filter (src/cloud_savegame/__init__.py, is_path_ignored) -/

/-- is_path_ignored: the string form of the path starts with the string form
of some ignored path. -/
def is_path_ignored (path : String) (ignored_paths : List String) : Bool :=
  ignored_paths.any (fun ignored => pyStartsWith path ignored)

/-! ## Rule parsing (src/cloud_savegame/__init__.py, parse_rules) -/

/-- Python rule.split(" ", 1): split on the first space only. -/
def splitFirstSpaceAux : List Char → List Char × Option (List Char)
  | [] => ([], none)
  | c :: rest =>
    if c = ' ' then ([], some rest)
    else
      let r := splitFirstSpaceAux rest
      (c :: r.1, r.2)

def pySplitFirstSpace (s : String) : List String :=
  match splitFirstSpaceAux s.toList with
  | (a, none) => [⟨a⟩]
  | (a, some b) => [⟨a⟩, ⟨b⟩]

/-- parse_rules over the text of one rule file: one pass over the lines,
yielding (rule_name, rule_path) pairs exactly as the generator does. -/
def parse_rules (config : ConfigStore) (app : String) (content : String) :
    List (String × String) :=
  (pySplitLines content).flatMap (fun line =>
    let rule := pyStrip line
    if rule = "" then []
    else
      match pySplitFirstSpace rule with
      | [rule_name, rule_path] =>
        if get_bool config app ("ignore_" ++ rule_name) then []
        else [(pyStrip rule_name, pyStrip rule_path)]
      | _ => [])

/-! ## The filesystem abstraction

The read-only view of the filesystem a run observes. resolve is the string
form of Path(p).resolve(); resolveFails marks a path whose resolution would
raise FileNotFoundError (the defensive handler in the containment check);
globNames dir pattern is the list of names x.name for x in dir.glob(pattern);
children dir the names iterdir yields. -/

structure FS where
  pathExists : String → Bool
  isFile : String → Bool
  isDir : String → Bool
  isSymlink : String → Bool
  mtime : String → Nat
  resolve : String → String
  resolveFails : String → Bool
  children : String → List String
  globNames : String → String → List String

/-! ## copy_item (src/cloud_savegame/__init__.py lines 184-250)

Returns the list of (source, destination) file copies performed. Directory
creation is not tracked; the fuel argument only bounds the directory
recursion of the embedding (every early return is fuel-independent). -/

def copy_item (fs : FS) (output_dir : String) : Nat → String → String → List (String × String)
  | 0, _, _ => []
  | fuel + 1, input_item, destination =>
    let item := fs.resolve input_item
    let dest := fs.resolve destination
    if fs.pathExists item = false then []
    else if pyStartsWith item output_dir then []
    else if fs.isSymlink input_item then []
    else if fs.isFile item then
      if fs.pathExists dest && decide (fs.mtime item < fs.mtime dest) then []
      else [(item, dest)]
    else if fs.isDir item then
      (fs.children item).flatMap (fun name =>
        copy_item fs output_dir fuel (item ++ "/" ++ name) (dest ++ "/" ++ name))
    else []

/-! ## ingest_path (src/cloud_savegame/__init__.py lines 359-467) -/

/-- The per-call arguments of ingest_path. -/
structure IngestCall where
  app : String
  rule_name : String
  path : String
  top_level : Bool
  base_path : Option String
deriving DecidableEq

/-- The run state ingest_path closes over: the output root, the ignore list,
the backlink and git flags, and the observed git dirtiness at commit time. -/
structure IngestCtx where
  output : String
  ignored_paths : List String
  backlink : Bool
  gitEnabled : Bool
  gitDirty : Bool
  hostname : String
deriving DecidableEq

/-- The effects one ingest_path activation performs, in program order. A copy
records the invocation of copy_item on (path, output of app and rule); a
recurse records a recursive ingest_path call from the glob branch. -/
inductive IngestAction where
  | copy (src dst : String)
  | gitCommit (msg : String)
  | recurse (c : IngestCall)
  | unlinkOrig (p : String)
  | quarantine (p : String)
  | mkSymlink (src dst : String)
deriving DecidableEq

/-- A raised Python exception: its type and message. -/
structure PyExc where
  ty : String
  msg : String
deriving DecidableEq

def securityOutsideDiag (path app base : String) : String :=
  "Security: Path " ++ path ++ " for app " ++ app ++
    " resolves outside of its base " ++ base ++ ". Skipping."

def securityAbsoluteDiag (path app : String) : String :=
  "Security: Absolute path " ++ path ++ " for app " ++ app ++
    " is not allowed in rules. Skipping."

def globAssertionMsg (app rule_name path : String) : String :=
  "globs in any path segment but the last are unsupported. This is a rule bug. app=" ++
    app ++ " rule_name=" ++ rule_name ++ " path=" ++ path

def danglingDiag (path : String) : String :=
  "This may be a rule or a program bug: " ++ path ++ " points to a non existent location."

def backupDiag (item : String) : String :=
  "Moved potentially conflicting item " ++ item ++ " to the backup directory."

/-- The containment gate (lines 387-406) passes: with a base, resolution
failure of either side is tolerated, and otherwise the string form of the
resolved path must start with the string form of the resolved base; with no
base, a path must contain a glob star or not be absolute. -/
def gatePasses (fs : FS) (call : IngestCall) : Bool :=
  match call.base_path with
  | some b =>
    fs.resolveFails call.path || fs.resolveFails b ||
      pyStartsWith (fs.resolve call.path) (fs.resolve b)
  | none => pyContainsChar call.path '*' || !(pyIsAbsolute call.path)

/-- The security diagnostic the gate emits when it does not pass. -/
def gateDiag (call : IngestCall) : List String :=
  match call.base_path with
  | some b => [securityOutsideDiag call.path call.app b]
  | none => [securityAbsoluteDiag call.path call.app]

/-- The recursive call the glob branch makes for one matched name (lines
428-437): rule_name extended by the name, top_level true, base defaulted to
the glob parent. -/
def globExpansionCall (call : IngestCall) (parent name : String) : IngestCall :=
  { app := call.app
    rule_name := call.rule_name ++ "/" ++ name
    path := parent ++ "/" ++ name
    top_level := true
    base_path := some (call.base_path.getD parent) }

/-- The backlink branch and the dangling-symlink audit (lines 449-464),
evaluated with the possibly rewritten top_level flag. -/
def ingestTail (fs : FS) (ctx : IngestCtx) (call : IngestCall)
    (output_dir : String) (top_level : Bool) : List IngestAction × List String :=
  let bl :=
    if ctx.backlink && top_level then
      let pre : List IngestAction × List String :=
        if fs.isSymlink call.path then ([IngestAction.unlinkOrig call.path], [])
        else if fs.pathExists call.path then
          ([IngestAction.quarantine call.path], [backupDiag call.path])
        else ([], [])
      (pre.1 ++ [IngestAction.mkSymlink call.path output_dir], pre.2)
    else ([], [])
  let dang :=
    if fs.isSymlink call.path && !(fs.pathExists call.path) then
      [danglingDiag call.path]
    else []
  (bl.1, bl.2 ++ dang)

/-- The output directory of one call: output slash app slash rule_name. -/
def ingestOutputDir (ctx : IngestCtx) (call : IngestCall) : String :=
  ctx.output ++ "/" ++ call.app ++ "/" ++ call.rule_name

/-- The names the glob branch iterates: the union (a Python set, modelled as
a deduplicated list) of the matches in the source parent directory and the
matches in the already ingested output directory (line 426). -/
def globMatchNames (fs : FS) (ctx : IngestCtx) (call : IngestCall) : List String :=
  (fs.globNames (pathParent call.path) (pathName call.path) ++
    fs.globNames (ingestOutputDir ctx call) (pathName call.path)).dedup

/-- The body of ingest_path after the gate (lines 408-464). -/
def ingestMain (fs : FS) (ctx : IngestCtx) (call : IngestCall) :
    Except PyExc (List IngestAction × List String) :=
  if is_path_ignored call.path ctx.ignored_paths then .ok ([], [])
  else
    let output_dir := ingestOutputDir ctx call
    if pyContainsChar call.path '*' then
      let parent := pathParent call.path
      if pyContainsChar parent '*' then
        .error { ty := "AssertionError",
                 msg := globAssertionMsg call.app call.rule_name call.path }
      else
        let names := globMatchNames fs ctx call
        let recs := names.map (fun name => IngestAction.recurse (globExpansionCall call parent name))
        let tl := ingestTail fs ctx call output_dir false
        .ok (recs ++ tl.1, tl.2)
    else
      let copyActs :=
        if fs.pathExists call.path then
          [IngestAction.copy call.path output_dir] ++
            (if ctx.gitEnabled && ctx.gitDirty then
              [IngestAction.gitCommit ("hostname=" ++ ctx.hostname ++ " app=" ++ call.app ++
                " rule=" ++ call.rule_name ++ " path=" ++ call.path)]
             else [])
        else []
      let tl := ingestTail fs ctx call output_dir call.top_level
      .ok (copyActs ++ tl.1, tl.2)

/-- ingest_path inside its try block: the gate, then the main body. -/
def ingestBody (fs : FS) (ctx : IngestCtx) (call : IngestCall) :
    Except PyExc (List IngestAction × List String) :=
  if gatePasses fs call then ingestMain fs ctx call else .ok ([], gateDiag call)

/-- The diagnostic the blanket except handler records (lines 466-467). -/
def ingestErrorDiag (call : IngestCall) (e : PyExc) : String :=
  "while ingesting app=" ++ call.app ++ " rule=" ++ call.rule_name ++
    " path=" ++ call.path ++ ": " ++ e.ty ++ " " ++ e.msg

/-- ingest_path as its callers see it: every exception of the body is caught
and turned into one diagnostic. -/
def safeIngest (fs : FS) (ctx : IngestCtx) (call : IngestCall) :
    List IngestAction × List String :=
  match ingestBody fs ctx call with
  | .ok r => r
  | .error e => ([], [ingestErrorDiag call e])

/-- A run over a list of ingestion branches: each branch contributes its
actions and diagnostics independently. -/
def runBranches (fs : FS) (ctx : IngestCtx) (calls : List IngestCall) :
    List IngestAction × List String :=
  (calls.flatMap (fun c => (safeIngest fs ctx c).1),
   calls.flatMap (fun c => (safeIngest fs ctx c).2))

/-! ## Ubisoft sub-discovery (src/cloud_savegame/__init__.py lines 666-703)

The persisted users.txt is modelled by its optional content (none when the
file does not exist); the savegame directory by the optional list of its
entries (name, is_dir), none when it does not exist. The Python set of user
identifiers is a Finset. -/

/-- The users read back from the persisted file: the lines of the stripped
content, none and empty content giving the empty set. -/
def ubisoftPrevUsers (fileContent : Option String) : Finset String :=
  match fileContent with
  | none => ∅
  | some content =>
    let c := pyStrip content
    if c = "" then ∅ else (pySplitLines c).toFinset

/-- The users freshly enumerated from the savegame directory: names of the
entries that are directories. -/
def ubisoftEnumUsers (savegameDir : Option (List (String × Bool))) : Finset String :=
  match savegameDir with
  | none => ∅
  | some entries => ((entries.filter (fun e => e.2)).map (fun e => e.1)).toFinset

/-- The user set a run holds after reading the file and enumerating the
directory: initial empty set updated with both. -/
def ubisoftRunUsers (prevContent : Option String)
    (savegameDir : Option (List (String × Bool))) : Finset String :=
  ubisoftPrevUsers prevContent ∪ ubisoftEnumUsers savegameDir

/-- The content written back to users.txt, given the iteration order in which
the Python set is listed. -/
def ubisoftWrite (users : List String) : String := pyJoin "\n" users

/-- The per-user binding paths the ubisoft variable expands to. -/
def ubisoftBindings (savegameDirPath : String) (users : Finset String) : Finset String :=
  users.image (fun u => savegameDirPath ++ "/" ++ u)

/-! ## Basic facts about the string primitives -/

theorem pyStartsWith_self (s : String) : pyStartsWith s s = true := by
  simp [pyStartsWith, List.isPrefixOf_iff_prefix]

theorem pyStartsWith_of_append (p b s : String)
    (h : pyStartsWith p (b ++ s) = true) : pyStartsWith p b = true := by
  simp only [pyStartsWith, List.isPrefixOf_iff_prefix] at h ⊢
  have hb : (b ++ s).toList = b.toList ++ s.toList := String.data_append b s
  rw [hb] at h
  exact (b.toList.prefix_append s.toList).trans h

theorem isFsDescendant_startsWith (p b : String)
    (h : isFsDescendant p b = true) : pyStartsWith p b = true := by
  simp only [isFsDescendant, Bool.or_eq_true, beq_iff_eq] at h
  rcases h with h | h
  · subst h; exact pyStartsWith_self p
  · exact pyStartsWith_of_append p b "/" h

/-! ## Shared concrete instances for witnesses and exhibits -/

/-- A filesystem of plain existing files: every path resolves to itself. -/
def fsId : FS :=
  { pathExists := fun _ => true
    isFile := fun _ => true
    isDir := fun _ => false
    isSymlink := fun _ => false
    mtime := fun _ => 0
    resolve := id
    resolveFails := fun _ => false
    children := fun _ => []
    globNames := fun _ _ => [] }

/-- A run context with output /repo and every optional feature off. -/
def ctxPlain : IngestCtx :=
  { output := "/repo", ignored_paths := [], backlink := false,
    gitEnabled := false, gitDirty := false, hostname := "host" }

/-! ## C10 -/

/-- C10: is_path_ignored returns true exactly when the string form of some
member of the ignored set is a string prefix of the string form of the path;
in particular /data/foo2 is treated as ignored when /data/foo is ignored,
although it is not a filesystem descendant of /data/foo. -/
theorem c10_ignored_iff_leading_match :
    (∀ (p : String) (I : List String),
      is_path_ignored p I = true ↔ ∃ i ∈ I, pyStartsWith p i = true) ∧
    is_path_ignored "/data/foo2" ["/data/foo"] = true ∧
    isFsDescendant "/data/foo2" "/data/foo" = false := by
  refine ⟨fun p I => ?_, by decide, by decide⟩
  simp [is_path_ignored, List.any_eq_true]

/-! ## C2 -/

/-- C2: with no trusted base, a path that is absolute and contains no glob
star is rejected as untrusted: ingest_path emits the security diagnostic and
returns with no action taken. -/
theorem c2_untrusted_absolute_rejected (fs : FS) (ctx : IngestCtx)
    (app rule_name path : String) (top_level : Bool)
    (hstar : pyContainsChar path '*' = false)
    (habs : pyIsAbsolute path = true) :
    safeIngest fs ctx ⟨app, rule_name, path, top_level, none⟩ =
      ([], [securityAbsoluteDiag path app]) := by
  simp [safeIngest, ingestBody, gatePasses, gateDiag, hstar, habs]

/-- C2 witness: the rejection at the concrete untrusted path /etc/passwd. -/
theorem c2_witness :
    safeIngest fsId ctxPlain ⟨"halflife", "saves", "/etc/passwd", false, none⟩ =
      ([], [securityAbsoluteDiag "/etc/passwd" "halflife"]) :=
  c2_untrusted_absolute_rejected fsId ctxPlain "halflife" "saves" "/etc/passwd" false
    (by decide) (by decide)

/-! ## C4 -/

/-- C4: an input whose resolved source path lies inside the output repository
is never copied: copy_item returns with no copy performed. -/
theorem c4_no_copy_inside_output (fs : FS) (output_dir : String)
    (fuel : Nat) (input_item destination : String)
    (hin : isFsDescendant (fs.resolve input_item) output_dir = true) :
    copy_item fs output_dir fuel input_item destination = [] := by
  have hsw := isFsDescendant_startsWith _ _ hin
  cases fuel with
  | zero => rfl
  | succ n => simp [copy_item, hsw]

/-- C4 witness: a source below /repo is not copied although it exists. -/
theorem c4_witness :
    copy_item fsId "/repo" 7 "/repo/game/saves/a.sav" "/repo/game/other" = [] :=
  c4_no_copy_inside_output fsId "/repo" 7 "/repo/game/saves/a.sav" "/repo/game/other"
    (by decide)

/-! ## C1 (code-bug exhibit) -/

/-- C1: the containment check is a plain string prefix test, so with trusted
base /home/u/Games/Foo the sibling path /home/u/Games/FooBar/save.dat passes
the check and ingest_path proceeds all the way to the copy, although that
path is not a filesystem descendant of the base. -/
theorem c1_gate_admits_nondescendant :
    ingestBody fsId ctxPlain
        ⟨"game", "r", "/home/u/Games/FooBar/save.dat", false, some "/home/u/Games/Foo"⟩ =
      .ok ([IngestAction.copy "/home/u/Games/FooBar/save.dat" "/repo/game/r"], []) ∧
    isFsDescendant "/home/u/Games/FooBar/save.dat" "/home/u/Games/Foo" = false := by
  exact ⟨by rfl, by decide⟩

/-! ## C3 -/

/-- A filesystem where source and destination files carry equal mtimes. -/
def fsEqualMtime : FS :=
  { pathExists := fun p => p == "/src/a" || p == "/repo/a"
    isFile := fun p => p == "/src/a"
    isDir := fun _ => false
    isSymlink := fun _ => false
    mtime := fun _ => 5
    resolve := id
    resolveFails := fun _ => false
    children := fun _ => []
    globNames := fun _ _ => [] }

/-- C3 counterexample: the destination exists and its modification time is
not older than that of the source (both are 5), yet copy_item performs the
copy — the code skips only when the destination is strictly newer. -/
theorem c3_equal_mtime_still_copies :
    copy_item fsEqualMtime "/repo" 1 "/src/a" "/repo/a" = [("/src/a", "/repo/a")] ∧
    fsEqualMtime.pathExists "/repo/a" = true ∧
    fsEqualMtime.mtime "/src/a" ≤ fsEqualMtime.mtime "/repo/a" := by
  refine ⟨by decide, by decide, by decide⟩

/-- C3 (amended): copy_item skips the file copy whenever the destination
exists and its modification time is strictly newer than that of the source;
consequently a second run performs no copy for a file whose destination is
strictly newer. -/
theorem c3_skip_when_dest_newer (fs : FS) (output_dir : String) (fuel : Nat)
    (input_item destination : String)
    (hfile : fs.isFile (fs.resolve input_item) = true)
    (hdest : fs.pathExists (fs.resolve destination) = true)
    (hmt : fs.mtime (fs.resolve input_item) < fs.mtime (fs.resolve destination)) :
    copy_item fs output_dir fuel input_item destination = [] := by
  cases fuel with
  | zero => rfl
  | succ n => simp [copy_item, hfile, hdest, hmt]

/-- A filesystem where the destination file is strictly newer than the source. -/
def fsDestNewer : FS :=
  { pathExists := fun p => p == "/src/a" || p == "/repo/a"
    isFile := fun p => p == "/src/a"
    isDir := fun _ => false
    isSymlink := fun _ => false
    mtime := fun p => if p == "/repo/a" then 9 else 5
    resolve := id
    resolveFails := fun _ => false
    children := fun _ => []
    globNames := fun _ _ => [] }

/-- C3 witness: with a strictly newer destination no copy happens. -/
theorem c3_witness :
    copy_item fsDestNewer "/repo" 3 "/src/a" "/repo/a" = [] :=
  c3_skip_when_dest_newer fsDestNewer "/repo" 3 "/src/a" "/repo/a"
    (by decide) (by decide) (by decide)

/-! ## C7 -/

def emptyConfig : ConfigStore := ⟨[]⟩

/-- C7 counterexample: a rule file consisting of the single non-blank line
foo yields no pair at all, against the claim of one pair per non-blank line:
a line without a space never yields. The remainder after the first space is
also not taken verbatim: its surrounding whitespace is stripped. -/
theorem c7_line_without_space_yields_nothing :
    parse_rules emptyConfig "app" "foo" = [] ∧ pyStrip "foo" ≠ "" ∧
    parse_rules emptyConfig "app" "name  path" = [("name", "path")] ∧
    (" path" : String) ≠ "path" := by
  exact ⟨by decide, by decide, by decide, by decide⟩

/-- What split(" ", 1) computes, spelled with takeWhile and dropWhile. -/
theorem splitFirstSpaceAux_eq (l : List Char) :
    splitFirstSpaceAux l =
      (l.takeWhile (fun c => c ≠ ' '),
       if l.contains ' ' then some ((l.dropWhile (fun c => c ≠ ' ')).drop 1)
       else none) := by
  induction l with
  | nil => simp [splitFirstSpaceAux]
  | cons c rest ih =>
    by_cases h : c = ' '
    · subst h
      simp [splitFirstSpaceAux, List.takeWhile_cons, List.dropWhile_cons,
        List.contains_cons]
    · simp [splitFirstSpaceAux, ih, List.takeWhile_cons, List.dropWhile_cons,
        List.contains_cons, h, Ne.symm h]

/-- One line of a rule file, written from the amended claim: a blank line
yields nothing; a non-blank line yields a pair only when it contains a space;
the first token up to the first space is the rule name; the remainder after
the first space keeps embedded spaces and is trimmed of surrounding
whitespace; a line whose first token is disabled by an ignore_ flag yields
nothing. -/
def ruleLineSpec (config : ConfigStore) (app : String) (line : String) :
    List (String × String) :=
  let t := pyStrip line
  if t = "" then []
  else if pyContainsChar t ' ' = false then []
  else
    let name : String := ⟨t.toList.takeWhile (fun c => c ≠ ' ')⟩
    let rest : String := ⟨(t.toList.dropWhile (fun c => c ≠ ' ')).drop 1⟩
    if get_bool config app ("ignore_" ++ name) then []
    else [(pyStrip name, pyStrip rest)]

/-- C7 (amended): parse_rules yields, per line of the file, exactly what the
amended description states. -/
theorem c7_parse_rules_amended (config : ConfigStore) (app content : String) :
    parse_rules config app content =
      (pySplitLines content).flatMap (ruleLineSpec config app) := by
  unfold parse_rules
  congr 1
  funext line
  by_cases h0 : pyStrip line = ""
  · simp [ruleLineSpec, h0]
  · by_cases h1 : ' ' ∈ (pyStrip line).data
    · simp [ruleLineSpec, pySplitFirstSpace, splitFirstSpaceAux_eq, pyContainsChar,
        h0, h1]
    · simp [ruleLineSpec, pySplitFirstSpace, splitFirstSpaceAux_eq, pyContainsChar,
        h0, h1]

/-! ## C5 -/

/-- A filesystem whose only glob activity is one FILE match a.sav under
/inst/saves. -/
def fsGlob : FS :=
  { pathExists := fun p => p == "/inst" || p == "/inst/saves" || p == "/inst/saves/a.sav"
    isFile := fun p => p == "/inst/saves/a.sav"
    isDir := fun p => p == "/inst" || p == "/inst/saves"
    isSymlink := fun _ => false
    mtime := fun _ => 0
    resolve := id
    resolveFails := fun _ => false
    children := fun p => if p == "/inst/saves" then ["a.sav"] else []
    globNames := fun d pat =>
      if d == "/inst/saves" && pat == "*.sav" then ["a.sav"] else [] }

/-- C5 counterexample: the single glob match a.sav is NOT a directory, yet
the recursive call extends rule_name to saves/a.sav — the code extends the
rule name for every match, not only for directory matches as claimed. -/
theorem c5_file_match_extends_rule_name :
    ingestBody fsGlob ctxPlain ⟨"app", "saves", "/inst/saves/*.sav", false, none⟩ =
      .ok ([IngestAction.recurse
              ⟨"app", "saves/a.sav", "/inst/saves/a.sav", true, some "/inst/saves"⟩], []) ∧
    fsGlob.isDir "/inst/saves/a.sav" = false ∧
    ("saves/a.sav" : String) ≠ "saves" := by
  exact ⟨by rfl, by decide, by decide⟩

/-- C5 (amended): for a call whose final path segment holds the only glob
star, the glob branch processes exactly the duplicate-free union of the
names matching in the source parent directory and in the already ingested
output directory, and for every match — file or directory alike — recurses
with rule_name extended by the match's name, top_level true, and the
trusted base defaulted to the glob's parent when not already set. -/
theorem c5_glob_expansion (fs : FS) (ctx : IngestCtx) (call : IngestCall)
    (hgate : gatePasses fs call = true)
    (hign : is_path_ignored call.path ctx.ignored_paths = false)
    (hstar : pyContainsChar call.path '*' = true)
    (hparent : pyContainsChar (pathParent call.path) '*' = false) :
    ingestBody fs ctx call =
      .ok ((globMatchNames fs ctx call).map
             (fun name =>
               IngestAction.recurse (globExpansionCall call (pathParent call.path) name)) ++
             (ingestTail fs ctx call (ingestOutputDir ctx call) false).1,
           (ingestTail fs ctx call (ingestOutputDir ctx call) false).2) ∧
    (globMatchNames fs ctx call).toFinset =
      (fs.globNames (pathParent call.path) (pathName call.path)).toFinset ∪
        (fs.globNames (ingestOutputDir ctx call) (pathName call.path)).toFinset ∧
    (globMatchNames fs ctx call).Nodup ∧
    ∀ name,
      (globExpansionCall call (pathParent call.path) name).rule_name =
          call.rule_name ++ "/" ++ name ∧
        (globExpansionCall call (pathParent call.path) name).path =
          pathParent call.path ++ "/" ++ name ∧
        (globExpansionCall call (pathParent call.path) name).top_level = true ∧
        (globExpansionCall call (pathParent call.path) name).base_path =
          some (call.base_path.getD (pathParent call.path)) := by
  refine ⟨?_, ?_, List.nodup_dedup _, fun name => ⟨rfl, rfl, rfl, rfl⟩⟩
  · simp [ingestBody, ingestMain, hgate, hign, hstar, hparent]
  · ext a
    simp [globMatchNames, List.mem_dedup]

/-- C5 witness: at the concrete glob call the processed name set is the
union of the source-parent matches and the output-directory matches. -/
theorem c5_witness :
    (globMatchNames fsGlob ctxPlain
        ⟨"app", "saves", "/inst/saves/*.sav", false, none⟩).toFinset =
      (fsGlob.globNames (pathParent "/inst/saves/*.sav")
          (pathName "/inst/saves/*.sav")).toFinset ∪
        (fsGlob.globNames
          (ingestOutputDir ctxPlain ⟨"app", "saves", "/inst/saves/*.sav", false, none⟩)
          (pathName "/inst/saves/*.sav")).toFinset :=
  (c5_glob_expansion fsGlob ctxPlain ⟨"app", "saves", "/inst/saves/*.sav", false, none⟩
    (by decide) (by decide) (by decide) (by decide)).2.1

/-! ## C6 -/

/-- A substring occurrence, as Python in on strings. -/
def pyInfix (needle hay : String) : Prop := needle.toList <:+: hay.toList

theorem pyInfix_app_of_errorDiag (call : IngestCall) (e : PyExc) :
    pyInfix call.app (ingestErrorDiag call e) := by
  unfold pyInfix ingestErrorDiag
  refine ⟨"while ingesting app=".toList,
    (" rule=" ++ call.rule_name ++ " path=" ++ call.path ++ ": " ++
      e.ty ++ " " ++ e.msg).toList, ?_⟩
  simp [String.toList, String.data_append, List.append_assoc]

theorem pyInfix_rule_of_errorDiag (call : IngestCall) (e : PyExc) :
    pyInfix call.rule_name (ingestErrorDiag call e) := by
  unfold pyInfix ingestErrorDiag
  refine ⟨("while ingesting app=" ++ call.app ++ " rule=").toList,
    (" path=" ++ call.path ++ ": " ++ e.ty ++ " " ++ e.msg).toList, ?_⟩
  simp [String.toList, String.data_append, List.append_assoc]

/-- C6: an error raised while processing one (app, rule_name, path) triple is
captured as a single diagnostic naming that app and rule; the branch itself
contributes no action; the wildcard-in-a-non-final-segment defect raises
exactly the AssertionError the code states; and a run over many branches is
the independent concatenation of the branches, so one branch erroring leaves
every other branch's contribution unchanged. -/
theorem c6_error_isolation (fs : FS) (ctx : IngestCtx) (call : IngestCall) :
    (∀ e, ingestBody fs ctx call = .error e →
      safeIngest fs ctx call = ([], [ingestErrorDiag call e]) ∧
        pyInfix call.app (ingestErrorDiag call e) ∧
        pyInfix call.rule_name (ingestErrorDiag call e)) ∧
    (gatePasses fs call = true →
      is_path_ignored call.path ctx.ignored_paths = false →
      pyContainsChar call.path '*' = true →
      pyContainsChar (pathParent call.path) '*' = true →
      ingestBody fs ctx call =
        .error ⟨"AssertionError", globAssertionMsg call.app call.rule_name call.path⟩) ∧
    (∀ calls1 calls2 : List IngestCall,
      runBranches fs ctx (calls1 ++ calls2) =
        ((runBranches fs ctx calls1).1 ++ (runBranches fs ctx calls2).1,
         (runBranches fs ctx calls1).2 ++ (runBranches fs ctx calls2).2)) := by
  refine ⟨fun e he => ?_, fun hgate hign hstar hparent => ?_, fun calls1 calls2 => ?_⟩
  · exact ⟨by simp [safeIngest, he], pyInfix_app_of_errorDiag call e,
      pyInfix_rule_of_errorDiag call e⟩
  · simp [ingestBody, ingestMain, hgate, hign, hstar, hparent]
  · simp [runBranches]

/-! ## C9 -/

theorem pyOrStr_empty_default (x : Option String) : pyOrStr x "" = x.getD "" := by
  cases x with
  | none => rfl
  | some s =>
    by_cases h : s = "" <;> simp [pyOrStr, h]

theorem splitSeq_ne_nil (s0 : Char) (srest l : List Char) :
    splitSeq s0 srest l ≠ [] := by
  cases l with
  | nil => simp [splitSeq]
  | cons c rest =>
    rw [splitSeq]
    split
    · simp
    · split <;> simp

theorem pySplit_ne_nil (s sep : String) : pySplit s sep ≠ [] := by
  unfold pySplit
  split
  · simp
  · simp only [ne_eq, List.map_eq_nil_iff]
    exact splitSeq_ne_nil _ _ _

/-- C9: get_list returns none — never an empty list — when the key is absent
or the stored value strips to nothing, and otherwise returns the non-empty
list obtained by splitting the stripped value on the configured divider. -/
theorem c9_get_list_none_or_nonempty (config : ConfigStore) (sec key : String) :
    (get_list config sec key = none ↔
      (get_str config sec key = none ∨
        pyStrip ((get_str config sec key).getD "") = "")) ∧
    ∀ l, get_list config sec key = some l →
      l ≠ [] ∧
        l = pySplit (pyStrip ((get_str config sec key).getD ""))
              (pyOrStr (get_str config "general" "divider") ",") := by
  constructor
  · unfold get_list
    rw [pyOrStr_empty_default]
    by_cases h : pyStrip ((get_str config sec key).getD "") = ""
    · simp [h]
    · rw [if_neg h]
      constructor
      · intro hsome
        cases hsome
      · rintro (hnone | habs)
        · exact absurd (by rw [hnone]; rfl) h
        · exact absurd habs h
  · intro l hl
    unfold get_list at hl
    rw [pyOrStr_empty_default] at hl
    by_cases h : pyStrip ((get_str config sec key).getD "") = ""
    · simp [h] at hl
    · rw [if_neg h] at hl
      have heq := Option.some.inj hl
      refine ⟨?_, heq.symm⟩
      rw [← heq]
      exact pySplit_ne_nil _ _

/-! ## C8 -/

theorem splitChar_of_not_mem (c : Char) (l : List Char) (h : c ∉ l) :
    splitChar c l = [l] := by
  induction l with
  | nil => rfl
  | cons x xs ih =>
    simp only [List.mem_cons, not_or] at h
    rw [splitChar, if_neg (fun hx => h.1 hx.symm), ih h.2]

theorem splitChar_append_sep (c : Char) (l1 l2 : List Char) (h : c ∉ l1) :
    splitChar c (l1 ++ c :: l2) = l1 :: splitChar c l2 := by
  induction l1 with
  | nil => simp [splitChar]
  | cons x xs ih =>
    simp only [List.mem_cons, not_or] at h
    rw [List.cons_append, splitChar, if_neg (fun hx => h.1 hx.symm), ih h.2]

theorem joinChar_cons₂ (c : Char) (a : List Char) (rest : List (List Char))
    (h : rest ≠ []) :
    joinChar [c] (a :: rest) = a ++ c :: joinChar [c] rest := by
  cases rest with
  | nil => cases h rfl
  | cons b r => simp [joinChar]

theorem splitChar_joinChar (c : Char) (cls : List (List Char)) (hne : cls ≠ [])
    (h : ∀ a ∈ cls, c ∉ a) : splitChar c (joinChar [c] cls) = cls := by
  induction cls with
  | nil => cases hne rfl
  | cons a rest ih =>
    cases rest with
    | nil => exact splitChar_of_not_mem c a (h a (by simp))
    | cons b rest2 =>
      rw [joinChar_cons₂ c a _ (by simp),
        splitChar_append_sep c a _ (h a (by simp)),
        ih (by simp) (fun x hx => h x (by simp [hx]))]

theorem joinChar_concat_ne_nil (c : Char) (cls : List (List Char)) (b : List Char)
    (hb : b ≠ []) : joinChar [c] (cls ++ [b]) ≠ [] := by
  cases cls with
  | nil => simpa [joinChar] using hb
  | cons a rest =>
    rw [List.cons_append, joinChar_cons₂ c a _ (by simp)]
    simp

theorem joinChar_head? (c : Char) (a : List Char) (rest : List (List Char))
    (ha : a ≠ []) : (joinChar [c] (a :: rest)).head? = a.head? := by
  cases rest with
  | nil => simp [joinChar]
  | cons b r2 =>
    rw [joinChar_cons₂ c a _ (by simp)]
    cases a with
    | nil => cases ha rfl
    | cons x xs => simp

theorem joinChar_getLast_concat (c : Char) (cls : List (List Char)) (b : List Char)
    (hb : b ≠ []) : (joinChar [c] (cls ++ [b])).getLast? = b.getLast? := by
  induction cls with
  | nil => simp [joinChar]
  | cons a rest ih =>
    rw [List.cons_append, joinChar_cons₂ c a _ (by simp),
      List.getLast?_append_cons a c (joinChar [c] (rest ++ [b]))]
    cases hX : joinChar [c] (rest ++ [b]) with
    | nil => exact absurd hX (joinChar_concat_ne_nil c rest b hb)
    | cons y ys =>
      rw [List.getLast?_cons_cons, ← hX]
      exact ih

theorem dropWhile_eq_self_of_head (p : Char → Bool) (l : List Char)
    (h : ∀ x, l.head? = some x → p x = false) : l.dropWhile p = l := by
  cases l with
  | nil => rfl
  | cons x xs => simp [List.dropWhile_cons, h x rfl]

theorem pyStripList_eq_self (l : List Char)
    (h1 : ∀ x, l.head? = some x → isPyWhitespace x = false)
    (h2 : ∀ x, l.getLast? = some x → isPyWhitespace x = false) :
    pyStripList l = l := by
  unfold pyStripList
  rw [dropWhile_eq_self_of_head _ _ h1,
    dropWhile_eq_self_of_head _ _ (fun x hx => h2 x (by rwa [List.head?_reverse] at hx)),
    List.reverse_reverse]

theorem pyStripList_joinChar (cls : List (List Char)) (hne : cls ≠ [])
    (h : ∀ a ∈ cls, a ≠ [] ∧ ∀ x ∈ a, isPyWhitespace x = false) :
    pyStripList (joinChar ['\n'] cls) = joinChar ['\n'] cls := by
  apply pyStripList_eq_self
  · intro x hx
    cases cls with
    | nil => cases hne rfl
    | cons a rest =>
      rw [joinChar_head? '\n' a rest (h a (by simp)).1] at hx
      exact (h a (by simp)).2 x (List.mem_of_mem_head? hx)
  · intro x hx
    rcases List.eq_nil_or_concat cls with h1 | ⟨init, b, hcat⟩
    · cases hne h1
    · rw [List.concat_eq_append] at hcat
      subst hcat
      have hb := h b (by simp)
      rw [joinChar_getLast_concat '\n' init b hb.1] at hx
      exact hb.2 x (List.mem_of_mem_getLast? hx)

theorem strMk_toList (s : String) : (⟨s.toList⟩ : String) = s := rfl

/-- Writing the user set and reading it back on the next run yields the same
set, for non-empty identifiers free of whitespace characters. -/
theorem ubisoftWrite_roundTrip (order : List String)
    (hclean : ∀ u ∈ order, u ≠ "" ∧ ∀ ch ∈ u.toList, isPyWhitespace ch = false) :
    ubisoftPrevUsers (some (ubisoftWrite order)) = order.toFinset := by
  cases order with
  | nil => rfl
  | cons u0 rest =>
    have hca : ∀ a ∈ (u0 :: rest).map String.toList,
        a ≠ [] ∧ ∀ x ∈ a, isPyWhitespace x = false := by
      intro a ha
      rw [List.mem_map] at ha
      obtain ⟨u, hu, rfl⟩ := ha
      obtain ⟨h1, h2⟩ := hclean u hu
      exact ⟨fun h0 => h1 (by rw [← strMk_toList u, h0]), h2⟩
    have hne : (u0 :: rest).map String.toList ≠ [] := by simp
    have hnomem : ∀ a ∈ (u0 :: rest).map String.toList, '\n' ∉ a := by
      intro a ha hmem
      have := (hca a ha).2 '\n' hmem
      simp [isPyWhitespace] at this
    have hstrip := pyStripList_joinChar _ hne hca
    have hsplit := splitChar_joinChar '\n' _ hne hnomem
    have hLne : joinChar ['\n'] ((u0 :: rest).map String.toList) ≠ [] := by
      cases rest with
      | nil => simpa [joinChar] using (hca u0.toList (by simp)).1
      | cons b r =>
        rw [List.map_cons, joinChar_cons₂ _ _ _ (by simp)]
        simp
    have hwrite : ubisoftWrite (u0 :: rest) =
        ⟨joinChar ['\n'] ((u0 :: rest).map String.toList)⟩ := rfl
    have hs : pyStrip (⟨joinChar ['\n'] ((u0 :: rest).map String.toList)⟩ : String) =
        ⟨joinChar ['\n'] ((u0 :: rest).map String.toList)⟩ := by
      have h0 : pyStrip (⟨joinChar ['\n'] ((u0 :: rest).map String.toList)⟩ : String) =
          ⟨pyStripList (joinChar ['\n'] ((u0 :: rest).map String.toList))⟩ := rfl
      rw [h0, hstrip]
    have hMkNe : (⟨joinChar ['\n'] ((u0 :: rest).map String.toList)⟩ : String) ≠ "" :=
      fun h => hLne (congrArg String.data h)
    have hsplitLines :
        pySplitLines ⟨joinChar ['\n'] ((u0 :: rest).map String.toList)⟩ = u0 :: rest := by
      show (splitChar '\n' (joinChar ['\n'] ((u0 :: rest).map String.toList))).map
          (fun l => (⟨l⟩ : String)) = u0 :: rest
      rw [hsplit, List.map_map]
      have hid : ((fun l => (⟨l⟩ : String)) ∘ String.toList) = id :=
        funext fun s => strMk_toList s
      rw [hid, List.map_id]
    show (if pyStrip (ubisoftWrite (u0 :: rest)) = "" then (∅ : Finset String)
          else (pySplitLines (pyStrip (ubisoftWrite (u0 :: rest)))).toFinset) =
        (u0 :: rest).toFinset
    rw [hwrite, hs, if_neg hMkNe, hsplitLines]

/-- C8: the user set a run computes is the union of the persisted file
content and the names of the subdirectories currently enumerated; the file is
rewritten so that the next run reads back exactly that union (for non-empty,
whitespace-free identifiers, in whatever order the set is listed); the
persisted set grows monotonically; and a ubisoft binding is produced for
every user of the union, present in the current enumeration or not. -/
theorem c8_ubisoft_union (prevContent : Option String)
    (savegameDir : Option (List (String × Bool))) (order : List String)
    (savedir : String)
    (horder : order.toFinset = ubisoftRunUsers prevContent savegameDir)
    (hclean : ∀ u ∈ order, u ≠ "" ∧ ∀ ch ∈ u.toList, isPyWhitespace ch = false) :
    ubisoftRunUsers prevContent savegameDir =
        ubisoftPrevUsers prevContent ∪ ubisoftEnumUsers savegameDir ∧
      ubisoftPrevUsers (some (ubisoftWrite order)) =
        ubisoftRunUsers prevContent savegameDir ∧
      ubisoftPrevUsers prevContent ⊆ ubisoftRunUsers prevContent savegameDir ∧
      ∀ u ∈ ubisoftRunUsers prevContent savegameDir,
        (savedir ++ "/" ++ u) ∈
          ubisoftBindings savedir (ubisoftRunUsers prevContent savegameDir) := by
  refine ⟨rfl, ?_, fun x hx => Finset.mem_union_left _ hx,
    fun u hu => Finset.mem_image_of_mem _ hu⟩
  rw [ubisoftWrite_roundTrip order hclean, horder]

/-- C8 witness: a user known only from the persisted file (alice), one known
from both (bob), and one newly enumerated (carol): the file is rewritten to
exactly the three-user union. -/
theorem c8_witness :
    ubisoftPrevUsers (some (ubisoftWrite ["alice", "bob", "carol"])) =
      ubisoftRunUsers (some "alice\nbob")
        (some [("bob", true), ("notes.txt", false), ("carol", true)]) :=
  (c8_ubisoft_union (some "alice\nbob")
    (some [("bob", true), ("notes.txt", false), ("carol", true)])
    ["alice", "bob", "carol"] "/pf/savegames" (by decide) (by decide)).2.1

/-- C6 witness: a rule with a star in a non-final segment aborts only its own
branch, leaving exactly one diagnostic that names the app and the rule. -/
theorem c6_witness :
    safeIngest fsId ctxPlain ⟨"appX", "ruleY", "/a/*/b*", false, none⟩ =
      ([], [ingestErrorDiag ⟨"appX", "ruleY", "/a/*/b*", false, none⟩
              ⟨"AssertionError", globAssertionMsg "appX" "ruleY" "/a/*/b*"⟩]) :=
  ((c6_error_isolation fsId ctxPlain ⟨"appX", "ruleY", "/a/*/b*", false, none⟩).1 _
    ((c6_error_isolation fsId ctxPlain ⟨"appX", "ruleY", "/a/*/b*", false, none⟩).2.1
      (by decide) (by decide) (by decide) (by decide))).1
